import Mathlib

set_option maxRecDepth 8000

/-!
Verification development for the `sensitivity-labels` repository.

The Go sources are embedded shallowly:
* `Label` / `Labels` mirror the structs of the package (the `encoding/xml`
  bookkeeping field `XMLName`, which carries no label data, is omitted);
* `templateLabelInfoXml` is the encoder from `sensitivity_labels.go`;
* the decoder side (`xml.Unmarshal` as used by `GetLabelInfoXml`) is embedded
  as a character-level scanner plus a token-level unmarshaller that reproduce
  the Go standard library behaviour on this vocabulary: element and attribute
  matching by local name, attribute values read up to the closing quote with
  the rewriting Go's `text` performs (an unescaped carriage return, or a
  carriage return followed by a line feed, becomes a single line feed), an
  unescaped `<`, a bad entity or a character outside the XML character range
  inside a value is a syntax error, labels already appended before a syntax
  error are kept (the error itself is discarded by `GetLabelInfoXml`), and
  character data is skipped, as the target structs bind none, after the same
  character-range validation;
* the filesystem is a flat map of paths (`FS`), archives are entry lists,
  and the lexical path functions (`goClean`, `goJoin2`, `goDir`) follow the
  Go `path/filepath` algorithms for Unix separators.
-/

/-- The `Label` struct of the source: six string attributes, in source order. -/
structure Label where
  Id : String
  SiteId : String
  Enabled : String
  Method : String
  ContentBits : String
  Removed : String
  deriving DecidableEq, Repr

/-- The `Labels` struct of the source: an ordered list of `Label` records. -/
structure Labels where
  labels : List Label
  deriving DecidableEq, Repr

/-- One `clbl:label` element as produced by the Sprintf call in
`templateLabelInfoXml`: six attributes in the fixed order id, enabled, method,
siteId, contentBits, removed, with the id and siteId values wrapped in braces. -/
def labelFragment (l : Label) : String :=
  "<clbl:label id=\"\x7b" ++ l.Id ++ "\x7d\" enabled=\"" ++ l.Enabled ++
    "\" method=\"" ++ l.Method ++ "\" siteId=\"\x7b" ++ l.SiteId ++
    "\x7d\" contentBits=\"" ++ l.ContentBits ++ "\" removed=\"" ++ l.Removed ++ "\"/>"

/-- The XML declaration emitted first by `templateLabelInfoXml`. -/
def xmlDeclStr : String := "<?xml version=\"1.0\" encoding=\"utf-8\" standalone=\"yes\"?>"

/-- The opening root element with the fixed MIP namespace declaration. -/
def labelListOpen : String :=
  "<clbl:labelList xmlns:clbl=\"http://schemas.microsoft.com/office/2020/mipLabelMetadata\">"

/-- The closing root tag. -/
def labelListClose : String := "</clbl:labelList>"

/-- `templateLabelInfoXml` from `sensitivity_labels.go`: the declaration, the
root open tag, one fragment per label appended in order, the root close tag. -/
def templateLabelInfoXml (labels : Labels) : String :=
  (labels.labels.foldl (fun acc l => acc ++ labelFragment l) (xmlDeclStr ++ labelListOpen))
    ++ labelListClose

/-- Concatenation of the label fragments, used to state the shape of the
encoder output. -/
def joinFrags : List Label → String
  | [] => ""
  | l :: ls => labelFragment l ++ joinFrags ls

/-! ## The XML scanner (embedding of the `encoding/xml` tokenizer) -/

/-- A token of the Go XML decoder relevant to this vocabulary.  A self-closing
tag is recorded on the start token (Go reports it as a start element followed
at once by its end element, which the unmarshaller treats identically). -/
inductive XmlTok where
  | startE (name : String) (attrs : List (String × String)) (selfClosing : Bool)
  | endE (name : String)
  deriving DecidableEq, Repr

/-- Whitespace accepted inside tags, as in the Go scanner. -/
def isXmlSpace (c : Char) : Bool := c = ' ' || c = '\t' || c = '\n' || c = '\r'

/-- Scanner mode.  `dead` is the absorbing error state: the Go tokenizer
returns a syntax error there and `xml.Unmarshal` stops, so no further token is
ever produced. -/
inductive ScanMode where
  | content
  | opened
  | pi (sawQ : Bool)
  | sname (nm : List Char)
  | attrsGap (el : List Char) (acc : List (String × String))
  | aname (el : List Char) (acc : List (String × String)) (an : List Char)
  | aeq (el : List Char) (acc : List (String × String)) (an : List Char)
  | aval0 (el : List Char) (acc : List (String × String)) (an : List Char)
  | aval (el : List Char) (acc : List (String × String)) (an : List Char) (v : List Char)
      (pcr : Bool)
  | aent (el : List Char) (acc : List (String × String)) (an : List Char) (v : List Char)
      (ent : List Char)
  | sclose (el : List Char) (acc : List (String × String))
  | ename (nm : List Char)
  | eend (nm : List Char)
  | dead
  deriving DecidableEq, Repr

/-- Scanner state: mode plus the stack of open (raw) element names, used for
the end-tag matching the Go tokenizer performs. -/
structure ScanState where
  mode : ScanMode
  stack : List (List Char)
  deriving DecidableEq, Repr

/-- The part of a possibly prefixed name after the first colon, if any. -/
def afterColon : List Char → Option (List Char)
  | [] => none
  | c :: cs => if c = ':' then some cs else afterColon cs

/-- Local part of a `prefix:local` name, as Go splits names at the first
colon. -/
def localName (n : List Char) : List Char := (afterColon n).getD n

/-- The predefined XML entities Go resolves inside attribute values; anything
else is a syntax error in strict mode. -/
def entityChar : List Char → Option Char
  | ['a', 'm', 'p'] => some '&'
  | ['l', 't'] => some '<'
  | ['g', 't'] => some '>'
  | ['q', 'u', 'o', 't'] => some '"'
  | ['a', 'p', 'o', 's'] => some '\x27'
  | _ => none

/-- The XML character range Go's scanner enforces on text it reads
(`isInCharacterRange`): tab, line feed, carriage return, and the Unicode
scalar values outside the control and non-character blocks.  Surrogates and
invalid encodings cannot occur in a Lean `Char`. -/
def xmlCharOk (c : Char) : Bool :=
  c = '\t' || c = '\n' || c = '\r' ||
    (0x20 ≤ c.toNat && c.toNat ≤ 0xD7FF) ||
    (0xE000 ≤ c.toNat && c.toNat ≤ 0xFFFD) ||
    (0x10000 ≤ c.toNat && c.toNat ≤ 0x10FFFF)

/-- One scanner step: consume one character, emit the tokens completed by it.
Inside an attribute value this performs what Go's `text` does byte for byte:
the closing quote ends the value, an unescaped `<` is an error, `&` starts an
entity whose expansion is written directly (resetting the carriage-return
pair), a carriage return is written as a line feed, a line feed directly after
a carriage return is skipped, and every other character is written verbatim
after the character-range check, whose failure is the illegal-character
syntax error.  Character data between tags gets the same range check but is
not collected. -/
def scanStep (st : ScanState) (c : Char) : ScanState × List XmlTok :=
  match st.mode with
  | .content =>
      if c = '<' then (⟨.opened, st.stack⟩, [])
      else if xmlCharOk c then (st, [])
      else (⟨.dead, st.stack⟩, [])
  | .opened =>
      if c = '?' then (⟨.pi false, st.stack⟩, [])
      else if c = '/' then (⟨.ename [], st.stack⟩, [])
      else if c = '!' || c = '<' || c = '>' || c = '=' || c = '"' || isXmlSpace c then
        (⟨.dead, st.stack⟩, [])
      else (⟨.sname [c], st.stack⟩, [])
  | .pi q =>
      if q && c = '>' then (⟨.content, st.stack⟩, [])
      else (⟨.pi (c = '?'), st.stack⟩, [])
  | .sname nm =>
      if isXmlSpace c then (⟨.attrsGap nm [], st.stack⟩, [])
      else if c = '>' then
        (⟨.content, nm :: st.stack⟩, [.startE (String.mk (localName nm)) [] false])
      else if c = '/' then (⟨.sclose nm [], st.stack⟩, [])
      else if c = '<' || c = '"' || c = '=' then (⟨.dead, st.stack⟩, [])
      else (⟨.sname (nm ++ [c]), st.stack⟩, [])
  | .attrsGap el acc =>
      if isXmlSpace c then (st, [])
      else if c = '>' then
        (⟨.content, el :: st.stack⟩, [.startE (String.mk (localName el)) acc false])
      else if c = '/' then (⟨.sclose el acc, st.stack⟩, [])
      else if c = '<' || c = '"' || c = '=' then (⟨.dead, st.stack⟩, [])
      else (⟨.aname el acc [c], st.stack⟩, [])
  | .aname el acc an =>
      if c = '=' then (⟨.aval0 el acc an, st.stack⟩, [])
      else if isXmlSpace c then (⟨.aeq el acc an, st.stack⟩, [])
      else if c = '>' || c = '/' || c = '<' || c = '"' then (⟨.dead, st.stack⟩, [])
      else (⟨.aname el acc (an ++ [c]), st.stack⟩, [])
  | .aeq el acc an =>
      if isXmlSpace c then (st, [])
      else if c = '=' then (⟨.aval0 el acc an, st.stack⟩, [])
      else (⟨.dead, st.stack⟩, [])
  | .aval0 el acc an =>
      if isXmlSpace c then (st, [])
      else if c = '"' then (⟨.aval el acc an [] false, st.stack⟩, [])
      else (⟨.dead, st.stack⟩, [])
  | .aval el acc an v pcr =>
      if c = '"' then
        (⟨.attrsGap el (acc ++ [(String.mk (localName an), String.mk v)]), st.stack⟩, [])
      else if c = '<' then (⟨.dead, st.stack⟩, [])
      else if c = '&' then (⟨.aent el acc an v [], st.stack⟩, [])
      else if c = '\r' then (⟨.aval el acc an (v ++ ['\n']) true, st.stack⟩, [])
      else if pcr && c = '\n' then (⟨.aval el acc an v false, st.stack⟩, [])
      else if xmlCharOk c then (⟨.aval el acc an (v ++ [c]) false, st.stack⟩, [])
      else (⟨.dead, st.stack⟩, [])
  | .aent el acc an v ent =>
      if c = ';' then
        match entityChar ent with
        | some e => (⟨.aval el acc an (v ++ [e]) false, st.stack⟩, [])
        | none => (⟨.dead, st.stack⟩, [])
      else (⟨.aent el acc an v (ent ++ [c]), st.stack⟩, [])
  | .sclose el acc =>
      if c = '>' then (⟨.content, st.stack⟩, [.startE (String.mk (localName el)) acc true])
      else (⟨.dead, st.stack⟩, [])
  | .ename nm =>
      if c = '>' then
        match st.stack with
        | top :: rest =>
            if top = nm then (⟨.content, rest⟩, [.endE (String.mk (localName nm))])
            else (⟨.dead, st.stack⟩, [])
        | [] => (⟨.dead, st.stack⟩, [])
      else if isXmlSpace c then (⟨.eend nm, st.stack⟩, [])
      else if c = '<' || c = '"' || c = '=' || c = '/' then (⟨.dead, st.stack⟩, [])
      else (⟨.ename (nm ++ [c]), st.stack⟩, [])
  | .eend nm =>
      if isXmlSpace c then (st, [])
      else if c = '>' then
        match st.stack with
        | top :: rest =>
            if top = nm then (⟨.content, rest⟩, [.endE (String.mk (localName nm))])
            else (⟨.dead, st.stack⟩, [])
        | [] => (⟨.dead, st.stack⟩, [])
      else (⟨.dead, st.stack⟩, [])
  | .dead => (st, [])

/-- Run the scanner over a character list, collecting emitted tokens. -/
def scanRun : ScanState → List Char → List XmlTok × ScanState
  | st, [] => ([], st)
  | st, c :: cs =>
      let p := scanStep st c
      let r := scanRun p.1 cs
      (p.2 ++ r.1, r.2)

/-- Token stream of a document: the tokens the Go tokenizer produces before
end of input or the first syntax error. -/
def tokenizeXml (s : String) : List XmlTok := (scanRun ⟨.content, []⟩ s.data).1

/-! ## The unmarshaller (embedding of `xml.Unmarshal` into `Labels`) -/

/-- The zero value of the `Label` struct. -/
def emptyLabel : Label := ⟨"", "", "", "", "", ""⟩

/-- Assign one attribute to the matching struct field, as the Go unmarshaller
does attribute by attribute (later duplicates overwrite earlier ones; unknown
attributes are ignored; missing ones leave the zero value `""`). -/
def applyAttr (l : Label) (a : String × String) : Label :=
  if a.1 = "id" then { l with Id := a.2 }
  else if a.1 = "siteId" then { l with SiteId := a.2 }
  else if a.1 = "enabled" then { l with Enabled := a.2 }
  else if a.1 = "method" then { l with Method := a.2 }
  else if a.1 = "contentBits" then { l with ContentBits := a.2 }
  else if a.1 = "removed" then { l with Removed := a.2 }
  else l

/-- Decode one `label` element from its attribute list. -/
def labelOfAttrs (attrs : List (String × String)) : Label := attrs.foldl applyAttr emptyLabel

/-- Walk the content of the `labelList` element.  Each child with local name
`label` is appended when its start tag is seen (exactly when Go grows the
slice); nested elements are skipped via the depth counter; the first end token
at depth zero closes the root and the decode succeeds; running out of tokens
is the swallowed error case: the labels appended so far are kept. -/
def parseContent : List XmlTok → Nat → List Label → List Label × Bool
  | [], _, acc => (acc, false)
  | .endE _ :: _, 0, acc => (acc, true)
  | .endE _ :: ts, d + 1, acc => parseContent ts d acc
  | .startE nm attrs true :: ts, 0, acc =>
      parseContent ts 0 (if nm = "label" then acc ++ [labelOfAttrs attrs] else acc)
  | .startE nm attrs false :: ts, 0, acc =>
      parseContent ts 1 (if nm = "label" then acc ++ [labelOfAttrs attrs] else acc)
  | .startE _ _ true :: ts, d + 1, acc => parseContent ts (d + 1) acc
  | .startE _ _ false :: ts, d + 1, acc => parseContent ts (d + 2) acc

/-- `xml.Unmarshal` of a token stream into `Labels`: the first element must
have local name `labelList` (otherwise Go reports an expected-element error
and the slice stays empty); its `label` children are collected in order.  The
boolean is `true` exactly when no error would be reported. -/
def unmarshalLabels (toks : List XmlTok) : Labels × Bool :=
  match toks with
  | .startE nm _ sc :: ts =>
      if nm = "labelList" then
        if sc then (⟨[]⟩, true)
        else
          let r := parseContent ts 0 []
          (⟨r.1⟩, r.2)
      else (⟨[]⟩, false)
  | _ => (⟨[]⟩, false)

/-- Full decode of a document: labels recovered together with the success
flag of `xml.Unmarshal`. -/
def decodeLabelInfo (s : String) : Labels × Bool := unmarshalLabels (tokenizeXml s)

/-- Whether `xml.Unmarshal` accepts the document without error. -/
def xmlParseOk (s : String) : Bool := (decodeLabelInfo s).2

/-! ## Filesystem model -/

/-- A flat filesystem: a set of existing directories and a map from file
paths to contents (first matching entry wins on lookup). -/
structure FS where
  dirs : List String
  files : List (String × String)
  deriving DecidableEq, Repr

/-- Contents of the file at `p`, if one exists. -/
def readFile (fs : FS) (p : String) : Option String :=
  (fs.files.find? (fun e => e.1 == p)).map (fun e => e.2)

/-- Contents of the file at `p`, or the empty byte string when the open
fails — exactly what `GetLabelInfoXml` ends up decoding in that case, since it
prints the open error and reads no bytes. -/
def readFileD (fs : FS) (p : String) : String := (readFile fs p).getD ""

/-- `os.WriteFile`: create or truncate-and-replace the file at `p`.  The new
entry is prepended and `readFile` takes the first match, which gives exactly
the overwrite semantics. -/
def writeFileFS (p c : String) (fs : FS) : FS :=
  ⟨fs.dirs, (p, c) :: fs.files⟩

/-- `os.Stat` succeeding: something (file or directory) exists at `p`. -/
def fsExists (fs : FS) (p : String) : Bool :=
  fs.dirs.contains p || fs.files.any (fun e => e.1 == p)

/-- Split a character list at slashes (the splitting `strings`/`filepath`
helpers perform on separators). -/
def splitSlashChars : List Char → List (List Char)
  | [] => [[]]
  | c :: cs =>
      if c = '/' then [] :: splitSlashChars cs
      else
        match splitSlashChars cs with
        | [] => [[c]]
        | h :: t => (c :: h) :: t

/-- Components of a path split at slashes. -/
def splitSlash (s : String) : List String := (splitSlashChars s.data).map (fun cs => String.mk cs)

/-- Join components with slashes (`strings.Join` with separator `/`). -/
def joinSlash : List String → String
  | [] => ""
  | [x] => x
  | x :: y :: xs => x ++ "/" ++ joinSlash (y :: xs)

/-- `os.MkdirAll`: create the directory at `p` together with all its
ancestors (prefixes component by component). -/
def pathPrefixes (p : String) : List String :=
  let cs := splitSlash p
  (List.range cs.length).map (fun i => joinSlash (cs.take (i + 1)))

/-- `os.MkdirAll` on the filesystem model. -/
def mkdirAll (p : String) (fs : FS) : FS := ⟨pathPrefixes p ++ fs.dirs, fs.files⟩

/-! ## Lexical path functions (Go `path/filepath`, Unix separators) -/

/-- One step of the element scan inside `filepath.Clean`: `..` pops a normal
component, is dropped at the root, and otherwise accumulates; the accumulator
is kept reversed. -/
def cleanFold (rooted : Bool) (out : List String) (c : String) : List String :=
  if c = ".." then
    match out with
    | [] => if rooted then [] else [".."]
    | o :: rest => if o = ".." then c :: out else rest
  else c :: out

/-- `filepath.Clean` for Unix paths: shortest lexically equivalent path. -/
def goClean (path : String) : String :=
  if path = "" then "."
  else
    let rooted := match path.data with | c :: _ => c = '/' | [] => false
    let comps := (splitSlash path).filter (fun c => c != "" && c != ".")
    let body := joinSlash (comps.foldl (cleanFold rooted) []).reverse
    if body = "" then (if rooted then "/" else ".")
    else if rooted then "/" ++ body else body

/-- `filepath.Join` on two elements: join the non-empty ones with a slash and
clean the result; all-empty input yields the empty path. -/
def goJoin2 (a b : String) : String :=
  if a = "" && b = "" then ""
  else if a = "" then goClean b
  else if b = "" then goClean a
  else goClean (a ++ "/" ++ b)

/-- `filepath.Dir`: everything up to the final slash, cleaned; `.` when there
is no slash. -/
def goDir (p : String) : String :=
  goClean (String.mk ((p.data.reverse.dropWhile (fun c => c != '/')).reverse))

/-- `strings.HasPrefix s pre`. -/
def goHasPrefix (s pre : String) : Bool := pre.data.isPrefixOf s.data

/-! ## Archive extraction (`Unzip`) -/

/-- One archive entry: its stored name, whether it is a directory entry, and
its decompressed contents. -/
structure ZipEntry where
  name : String
  isDir : Bool
  content : String
  deriving DecidableEq, Repr

/-- The destination path an entry resolves to, after joining with the
destination directory and lexical cleaning, escapes the destination: it is
neither the destination itself nor lexically below it. -/
def escapesDest (dest name : String) : Bool :=
  let p := goJoin2 dest name
  !(p == goClean dest || goHasPrefix p (goClean dest ++ "/"))

/-- The `extractAndWriteFile` closure of `Unzip`: join the entry name onto the
destination, reject it when the joined path does not lie under the cleaned
destination (the zip-slip check), otherwise create the directory or write the
file.  I/O errors of the host are not modelled; reading the entry cannot fail
here. -/
def extractAndWriteFile (dest : String) (f : ZipEntry) (fs : FS) : FS × Option String :=
  let path := goJoin2 dest f.name
  if !goHasPrefix path (goClean dest ++ "/") then
    (fs, some ("illegal file path: " ++ path))
  else if f.isDir then
    (mkdirAll path fs, none)
  else
    (writeFileFS path f.content (mkdirAll (goDir path) fs), none)

/-- The extraction loop of `Unzip`: entries in order, stopping at the first
error, which is returned. -/
def unzipEntries (dest : String) : List ZipEntry → FS → FS × Option String
  | [], fs => (fs, none)
  | f :: rest, fs =>
      match extractAndWriteFile dest f fs with
      | (fs1, none) => unzipEntries dest rest fs1
      | (fs1, some e) => (fs1, some e)

/-- `Unzip` on an already-opened archive (the `zip.OpenReader` failure path,
an invalid archive, is outside this model): create the destination directory,
then extract every entry. -/
def Unzip (dest : String) (entries : List ZipEntry) (fs : FS) : FS × Option String :=
  unzipEntries dest entries (mkdirAll dest fs)

/-! ## Repacking (`Zip`) and the label write path (`SetLabels`) -/

/-- Relative slash path of `p` under the cleaned directory `dir`. -/
def relUnder (dir p : String) : String :=
  String.mk (p.data.drop (goClean dir ++ "/").data.length)

/-- `Zip dir`: entries for the regular files below `dir`, named by their
relative slash paths, in filesystem listing order; directories are not stored. -/
def zipDir (dir : String) (fs : FS) : List (String × String) :=
  fs.files.filterMap (fun e =>
    if goHasPrefix e.1 (goClean dir ++ "/") then some (relUnder dir e.1, e.2) else none)

/-- The byte stream of the in-memory zip buffer built from the entry list. -/
def encodeZipBytes (entries : List (String × String)) : String :=
  String.join (entries.map (fun e => e.1 ++ "\x00" ++ e.2 ++ "\x00"))

/-- Success oracle for the fallible I/O steps of `SetLabels`, in program
order: the `os.WriteFile` of the label document, the `Zip` walk, the
`io.ReadAll` of the buffer, and the final `os.WriteFile` of the archive.  A
failed step is modelled as leaving the filesystem as it was; a failure can at
most concern the step's own target, which is all the theorems rely on. -/
structure IOOracle where
  labelWriteOk : Bool
  zipOk : Bool
  readAllOk : Bool
  archiveWriteOk : Bool
  deriving DecidableEq, Repr

/-- `SetLabels` from `sensitivity_labels.go`: write the encoded label XML at
`labelInfoPath`, build the zip byte stream of `unzipDir` entirely in memory,
read it back, and only then overwrite the archive at `filePath`.  Every failing
step returns its error immediately. -/
def SetLabels (o : IOOracle) (unzipDir filePath labelInfoPath : String) (newLabels : Labels)
    (fs : FS) : FS × Option String :=
  if !o.labelWriteOk then (fs, some "IOError: writing LabelInfo.xml")
  else
    let fs1 := writeFileFS labelInfoPath (templateLabelInfoXml newLabels) fs
    if !o.zipOk then (fs1, some "IOError: zip walk")
    else
      let zipBytes := encodeZipBytes (zipDir unzipDir fs1)
      if !o.readAllOk then (fs1, some "IOError: reading zip buffer")
      else if !o.archiveWriteOk then (fs1, some "IOError: writing archive")
      else (writeFileFS filePath zipBytes fs1, none)

/-- `GetLabelInfoXml`: open and read the file (an unreadable file decodes as
empty input), unmarshal, and return the labels with any error discarded. -/
def GetLabelInfoXml (fs : FS) (filePath : String) : Labels :=
  (decodeLabelInfo (readFileD fs filePath)).1

/-- `CheckLabelInfoPath`: the fixed relative path appended to the extraction
root, returned unconditionally together with the result of `os.Stat`. -/
def CheckLabelInfoPath (fs : FS) (dirPath : String) : Bool × String :=
  let labelInfoPath := dirPath ++ "/docMetadata/LabelInfo.xml"
  (fsExists fs labelInfoPath, labelInfoPath)

/-! ## File discovery -/

/-- A directory tree: regular files and directories with ordered children. -/
inductive FTree where
  | file (name : String)
  | dir (name : String) (children : List FTree)

/-- `filepath.Ext`: the suffix from the final dot of the last path element,
empty when there is none. -/
def goExt (s : String) : String :=
  let r := s.data.reverse
  let seg := r.takeWhile (fun c => c != '.' && c != '/')
  match r.drop seg.length with
  | '.' :: _ => String.mk ('.' :: seg.reverse)
  | _ => ""

/-- `isExtensionFile`: the file name's extension equals one of the accepted
extensions (string equality, hence case-sensitive). -/
def isExtensionFile (name : String) (exts : List String) : Bool :=
  exts.any (fun ext => goExt name == ext)

/-- `filterFilesByExtension`. -/
def filterFilesByExtension (files : List String) (exts : List String) : List String :=
  files.filter (fun f => isExtensionFile f exts)

/-- Names of the regular files among a directory's immediate children, in
listing order (`os.ReadDir` with directories skipped). -/
def immediateFiles (cs : List FTree) : List String :=
  cs.filterMap (fun t => match t with | .file n => some n | .dir _ _ => none)

mutual

/-- Base names of every regular file in a subtree, in walk order
(`filepath.Walk` appends the `FileInfo` of each non-directory). -/
def subtreeFiles : FTree → List String
  | .file n => [n]
  | .dir _ cs => subtreeFilesList cs

/-- Walk over a list of sibling subtrees. -/
def subtreeFilesList : List FTree → List String
  | [] => []
  | t :: ts => subtreeFiles t ++ subtreeFilesList ts

end

/-- `ListExtensionFiles` applied to the children of the root directory:
immediate regular children when non-recursive, the full subtree walk when
recursive, then the extension filter. -/
def ListExtensionFiles (cs : List FTree) (recursive : Bool) (exts : List String) :
    List String :=
  filterFilesByExtension (if recursive then subtreeFilesList cs else immediateFiles cs) exts

/-- The default extension set of the CLI. -/
def defaultExtensions : List String := [".docx", ".xlsx", ".pptx"]

/-- The file-discovery step of `main` (`cmd/labels/main.go`): for a directory
it calls `sl.ListExtensionFiles(path, false, extensions)` — the second
argument is the literal `false`, the parsed `recurse` flag is never consulted —
and for a single file it lists just that file. -/
def mainListFiles (root : FTree) (recurse : Bool) (exts : List String) : List String :=
  match root with
  | .dir _ children => ListExtensionFiles children false exts
  | .file n => [n]

/-! ## The `set` step of `main` -/

/-- Result record for one processed file, as in the source. -/
structure FileLabel where
  FilePath : String
  LabelInfo : Bool
  Labels : List Label
  deriving DecidableEq, Repr

/-- The replacement label set `main` constructs for `set`: one label with the
caller's identifiers and the fixed enabled/method/contentBits/removed values. -/
def newLabelsFor (labelId tenantId : String) : Labels :=
  ⟨[{ Id := labelId, SiteId := tenantId, Enabled := "1", Method := "Privileged",
      ContentBits := "0", Removed := "0" }]⟩

/-- The `set` branch of `main` for one file: in dry-run mode only the report
is updated, `SetLabels` is not invoked and the filesystem is untouched;
otherwise `SetLabels` runs and the report carries the new labels on success. -/
def setStep (dryrun : Bool) (o : IOOracle) (unzipDir filePath labelInfoPath : String)
    (labelId tenantId : String) (fl : FileLabel) (fs : FS) :
    FS × FileLabel × Option String :=
  let newLabels := newLabelsFor labelId tenantId
  if dryrun then (fs, { fl with Labels := newLabels.labels }, none)
  else
    match SetLabels o unzipDir filePath labelInfoPath newLabels fs with
    | (fs1, none) => (fs1, { fl with Labels := newLabels.labels }, none)
    | (fs1, some e) => (fs1, fl, some e)


/-- Characters that survive a double-quoted attribute value unchanged: not
the closing `"`, not the `<` the Go scanner rejects, not the `&` that starts
entity processing, not the carriage return Go rewrites to a line feed, and
inside the XML character range Go validates (an illegal character is a syntax
error). -/
def safeChar (c : Char) : Bool :=
  !(c == '"' || c == '<' || c == '&' || c == '\r') && xmlCharOk c

/-- A field value every character of which passes through an attribute value
verbatim. -/
def safeStr (s : String) : Bool := s.data.all safeChar

/-- All six fields of the label are attribute-safe. -/
def safeLabel (l : Label) : Bool :=
  safeStr l.Id && safeStr l.SiteId && safeStr l.Enabled && safeStr l.Method &&
    safeStr l.ContentBits && safeStr l.Removed

/-- The image of a label after one encode-decode cycle: the id and siteId
come back wrapped in the braces the encoder added, the other fields verbatim. -/
def braceLabel (l : Label) : Label :=
  { l with Id := "\x7b" ++ l.Id ++ "\x7d", SiteId := "\x7b" ++ l.SiteId ++ "\x7d" }

/-- The token the scanner produces for one encoded label fragment. -/
def labelTok (l : Label) : XmlTok :=
  .startE "label"
    [("id", "\x7b" ++ l.Id ++ "\x7d"), ("enabled", l.Enabled), ("method", l.Method),
      ("siteId", "\x7b" ++ l.SiteId ++ "\x7d"), ("contentBits", l.ContentBits),
      ("removed", l.Removed)] true

/-! ## Helper lemmas -/

theorem foldl_labelFragment (L : List Label) (init : String) :
    L.foldl (fun acc l => acc ++ labelFragment l) init = init ++ joinFrags L := by
  induction L generalizing init with
  | nil => simp [joinFrags]
  | cons l ls ih =>
      show (List.foldl _ (init ++ labelFragment l) ls) = _
      rw [ih]
      apply String.ext
      simp [joinFrags, String.data_append]

theorem encode_eq (ls : Labels) :
    templateLabelInfoXml ls =
      xmlDeclStr ++ labelListOpen ++ joinFrags ls.labels ++ labelListClose := by
  unfold templateLabelInfoXml
  rw [foldl_labelFragment]

theorem immediateFiles_cons_file (m : String) (ts : List FTree) :
    immediateFiles (.file m :: ts) = m :: immediateFiles ts := rfl

theorem immediateFiles_cons_dir (m : String) (cs0 ts : List FTree) :
    immediateFiles (.dir m cs0 :: ts) = immediateFiles ts := rfl

theorem mem_immediateFiles (cs : List FTree) (n : String) :
    n ∈ immediateFiles cs ↔ FTree.file n ∈ cs := by
  induction cs with
  | nil => simp [immediateFiles]
  | cons t ts ih =>
      cases t with
      | file m => simp [immediateFiles_cons_file, List.mem_cons, ih]
      | dir m cs0 => simp [immediateFiles_cons_dir, List.mem_cons, ih]

theorem readFile_write_ne (fs : FS) (p q c : String) (h : p ≠ q) :
    readFile (writeFileFS q c fs) p = readFile fs p := by
  have hq : (q == p) = false := by simpa using Ne.symm h
  simp [readFile, writeFileFS, List.find?, hq]

theorem readFile_write_self (fs : FS) (p c : String) :
    readFile (writeFileFS p c fs) p = some c := by
  simp [readFile, writeFileFS, List.find?]

theorem escapes_check (dest name : String) (h : escapesDest dest name = true) :
    goHasPrefix (goJoin2 dest name) (goClean dest ++ "/") = false := by
  unfold escapesDest at h
  simp only [Bool.not_eq_eq_eq_not, Bool.not_true, Bool.or_eq_false_iff] at h
  exact h.2

theorem unzipEntries_append_err (dest : String) (pre : List ZipEntry) (e : ZipEntry)
    (post : List ZipEntry) (fs : FS)
    (hpre : ∀ f ∈ pre, goHasPrefix (goJoin2 dest f.name) (goClean dest ++ "/") = true)
    (hchk : goHasPrefix (goJoin2 dest e.name) (goClean dest ++ "/") = false) :
    unzipEntries dest (pre ++ e :: post) fs =
      ((unzipEntries dest pre fs).1, some ("illegal file path: " ++ goJoin2 dest e.name)) := by
  induction pre generalizing fs with
  | nil => simp [unzipEntries, extractAndWriteFile, hchk]
  | cons f rest ih =>
      have hf := hpre f (List.mem_cons_self f rest)
      have hrest : ∀ g ∈ rest, goHasPrefix (goJoin2 dest g.name) (goClean dest ++ "/") = true :=
        fun g hg => hpre g (List.mem_cons_of_mem f hg)
      by_cases hd : f.isDir = true <;>
        simp [unzipEntries, extractAndWriteFile, hf, hd, ih _ hrest]

/-! ## Claim theorems -/

/-- C4: `templateLabelInfoXml` produces exactly the XML declaration, the
`clbl:labelList` root carrying the MIP namespace declaration, and one
self-closing `clbl:label` fragment per label in order, where each fragment
(see `labelFragment`) lists the six attributes in the fixed order id, enabled,
method, siteId, contentBits, removed with the id and siteId values wrapped in
braces; an empty `Labels` encodes to the root element with no children. -/
theorem templateLabelInfoXml_shape (ls : Labels) :
    templateLabelInfoXml ls =
      xmlDeclStr ++ labelListOpen ++ joinFrags ls.labels ++ labelListClose ∧
    templateLabelInfoXml ⟨[]⟩ = xmlDeclStr ++ labelListOpen ++ labelListClose := by
  refine ⟨encode_eq ls, ?_⟩
  rfl

/-- C9: `CheckLabelInfoPath` returns the root joined with the fixed relative
path `docMetadata/LabelInfo.xml` unconditionally, together with a boolean that
is true exactly when `os.Stat` finds something at that path; it never reads or
parses the file's contents. -/
theorem checkLabelInfoPath_spec (fs : FS) (dirPath : String) :
    (CheckLabelInfoPath fs dirPath).2 = dirPath ++ "/docMetadata/LabelInfo.xml" ∧
    ((CheckLabelInfoPath fs dirPath).1 = true ↔
      fsExists fs (dirPath ++ "/docMetadata/LabelInfo.xml") = true) :=
  ⟨rfl, Iff.rfl⟩

/-- C8: non-recursive discovery over a directory containing the regular files
a.xlsx, b.txt, c.docx with the default extension set returns exactly a.xlsx
and c.docx; and in general a name is listed iff it is a regular immediate
child whose extension (of the final path segment, compared case-sensitively)
is in the accepted set — directories and non-matching files are excluded. -/
theorem extension_filtering :
    ListExtensionFiles [.file "a.xlsx", .file "b.txt", .file "c.docx"] false defaultExtensions
        = ["a.xlsx", "c.docx"] ∧
    ∀ (items : List FTree) (exts : List String) (n : String),
      n ∈ ListExtensionFiles items false exts ↔
        FTree.file n ∈ items ∧ isExtensionFile n exts = true := by
  refine ⟨by decide, fun items exts n => ?_⟩
  simp [ListExtensionFiles, filterFilesByExtension, List.mem_filter, mem_immediateFiles]

/-- C7: in dry-run mode the `set` branch of `main` performs no filesystem
mutation whatsoever — in particular `SetLabels` never runs, so the label file
is not written, nothing is repacked and the archive at `filePath` keeps its
bytes — while the reported `FileLabel` carries exactly the single replacement
label with the caller's identifiers, and any subsequent read (a later `get`)
of any path, including the label decode itself, sees the pre-existing state. -/
theorem dryrun_no_mutation (o : IOOracle) (unzipDir filePath labelInfoPath : String)
    (labelId tenantId : String) (fl : FileLabel) (fs : FS) :
    (setStep true o unzipDir filePath labelInfoPath labelId tenantId fl fs).1 = fs ∧
    (setStep true o unzipDir filePath labelInfoPath labelId tenantId fl fs).2.1.Labels =
      [⟨labelId, tenantId, "1", "Privileged", "0", "0"⟩] ∧
    (setStep true o unzipDir filePath labelInfoPath labelId tenantId fl fs).2.2 = none ∧
    (∀ p, readFile (setStep true o unzipDir filePath labelInfoPath labelId tenantId fl fs).1 p
        = readFile fs p) ∧
    (∀ p, GetLabelInfoXml (setStep true o unzipDir filePath labelInfoPath labelId tenantId fl fs).1 p
        = GetLabelInfoXml fs p) :=
  ⟨rfl, rfl, rfl, fun _ => rfl, fun _ => rfl⟩

/-- C6 (code bug): the CLI defines and documents a `--recursive` flag, but
`main` always calls `ListExtensionFiles(path, false, extensions)`: the parsed
flag is never consulted, so a matching file inside a subdirectory is never
listed even when recursion is requested, although the library function itself
does walk the subtree when its `recursive` argument is true. -/
theorem recursive_flag_ignored :
    mainListFiles (.dir "root" [.dir "sub" [.file "x.docx"]]) true defaultExtensions = [] ∧
    ListExtensionFiles [.dir "sub" [.file "x.docx"]] true defaultExtensions = ["x.docx"] ∧
    ∀ (root : FTree) (a b : Bool) (exts : List String),
      mainListFiles root a exts = mainListFiles root b exts := by
  refine ⟨by decide, by decide, fun root a b exts => ?_⟩
  cases root <;> rfl

/-- C2: an archive entry whose name, joined onto the destination and
lexically cleaned, resolves outside the destination directory makes `Unzip`
return the error naming the offending joined path and abort: the resulting
filesystem is exactly the one produced by the entries before it (all of which
stayed under the destination), so nothing at all is written for the offending
entry and the entries after it are never extracted. -/
theorem unzip_traversal_aborts (dest : String) (pre post : List ZipEntry) (e : ZipEntry)
    (fs : FS)
    (hpre : ∀ f ∈ pre, goHasPrefix (goJoin2 dest f.name) (goClean dest ++ "/") = true)
    (hesc : escapesDest dest e.name = true) :
    (Unzip dest (pre ++ e :: post) fs).2 =
      some ("illegal file path: " ++ goJoin2 dest e.name) ∧
    (Unzip dest (pre ++ e :: post) fs).1 =
      (unzipEntries dest pre (mkdirAll dest fs)).1 := by
  have h := unzipEntries_append_err dest pre e post (mkdirAll dest fs) hpre
    (escapes_check dest e.name hesc)
  unfold Unzip
  rw [h]
  exact ⟨rfl, rfl⟩

/-- Witness for C2 at the spec's own example: the entry `../../evil.txt`
against destination `out`. -/
theorem unzip_traversal_aborts_witness :
    escapesDest "out" "../../evil.txt" = true ∧
    (Unzip "out" [⟨"../../evil.txt", false, "pwned"⟩] ⟨[], []⟩).2 =
      some ("illegal file path: " ++ goJoin2 "out" "../../evil.txt") := by
  refine ⟨by decide, ?_⟩
  exact (unzip_traversal_aborts "out" [] [] ⟨"../../evil.txt", false, "pwned"⟩ ⟨[], []⟩
    (fun f hf => absurd hf (List.not_mem_nil f)) (by decide)).1

/-- C3: `SetLabels` builds the repacked byte stream entirely in memory before
the archive is first written.  If the label-XML write, the repack walk or the
buffer read fails, an error is returned and the archive at `filePath` keeps
its bytes; and the only value the archive can ever change to is the zip stream
fully built from the working directory after the label write. -/
theorem setLabels_original_untouched (o : IOOracle) (unzipDir filePath labelInfoPath : String)
    (newLabels : Labels) (fs : FS) (hne : labelInfoPath ≠ filePath) :
    ((o.labelWriteOk = false ∨ o.zipOk = false ∨ o.readAllOk = false) →
      (SetLabels o unzipDir filePath labelInfoPath newLabels fs).2.isSome = true ∧
      readFile (SetLabels o unzipDir filePath labelInfoPath newLabels fs).1 filePath =
        readFile fs filePath) ∧
    (∀ bytes,
      readFile (SetLabels o unzipDir filePath labelInfoPath newLabels fs).1 filePath =
        some bytes →
      readFile fs filePath = some bytes ∨
      bytes = encodeZipBytes (zipDir unzipDir
        (writeFileFS labelInfoPath (templateLabelInfoXml newLabels) fs))) := by
  have hlip := readFile_write_ne fs filePath labelInfoPath (templateLabelInfoXml newLabels)
    (Ne.symm hne)
  rcases o with ⟨lw, zw, ra, aw⟩
  cases lw <;> cases zw <;> cases ra <;> cases aw <;>
    simp_all [SetLabels, readFile_write_self]

/-- Witness for C3: the label write fails, the archive keeps its contents. -/
theorem setLabels_original_untouched_witness :
    ("work/docMetadata/LabelInfo.xml" : String) ≠ "doc.docx" ∧
    ((SetLabels ⟨false, true, true, true⟩ "work" "doc.docx" "work/docMetadata/LabelInfo.xml"
        (newLabelsFor "A" "B") ⟨[], [("doc.docx", "orig")]⟩).2.isSome = true ∧
      readFile (SetLabels ⟨false, true, true, true⟩ "work" "doc.docx"
          "work/docMetadata/LabelInfo.xml" (newLabelsFor "A" "B")
          ⟨[], [("doc.docx", "orig")]⟩).1 "doc.docx" =
        readFile ⟨[], [("doc.docx", "orig")]⟩ "doc.docx") := by
  refine ⟨by decide, ?_⟩
  exact (setLabels_original_untouched ⟨false, true, true, true⟩ "work" "doc.docx"
    "work/docMetadata/LabelInfo.xml" (newLabelsFor "A" "B") ⟨[], [("doc.docx", "orig")]⟩
    (by decide)).1 (Or.inl rfl)

/-- C10: the encoder escapes nothing — the field strings are interpolated
verbatim into the attribute syntax — so a label whose Method contains a double
quote yields a document the decoder rejects (`xml.Unmarshal` errors on it) and
whose decode reproduces neither the original LabelSet nor even its
brace-wrapped image. -/
theorem encoder_no_escaping :
    templateLabelInfoXml ⟨[⟨"x", "y", "1", "a\"b", "0", "0"⟩]⟩ =
      xmlDeclStr ++ labelListOpen ++
        ("<clbl:label id=\"\x7bx\x7d\" enabled=\"1\" method=\"a\"b\" siteId=\"\x7by\x7d\""
          ++ " contentBits=\"0\" removed=\"0\"/>") ++ labelListClose ∧
    xmlParseOk (templateLabelInfoXml ⟨[⟨"x", "y", "1", "a\"b", "0", "0"⟩]⟩) = false ∧
    (decodeLabelInfo (templateLabelInfoXml ⟨[⟨"x", "y", "1", "a\"b", "0", "0"⟩]⟩)).1 ≠
      ⟨[⟨"x", "y", "1", "a\"b", "0", "0"⟩]⟩ ∧
    (decodeLabelInfo (templateLabelInfoXml ⟨[⟨"x", "y", "1", "a\"b", "0", "0"⟩]⟩)).1 ≠
      ⟨[⟨"\x7bx\x7d", "\x7by\x7d", "1", "a\"b", "0", "0"⟩]⟩ := by
  refine ⟨by decide, by decide, by decide, by decide⟩

/-- Counterexample to C1 as stated: already for a single label with ordinary
field values, decoding the encoded document does not return the original
LabelSet — the decoder keeps the braces the encoder wrapped around the id and
siteId values. -/
theorem roundtrip_claim_counterexample :
    GetLabelInfoXml ⟨[], [("f.xml",
        templateLabelInfoXml ⟨[⟨"a", "b", "1", "Privileged", "0", "0"⟩]⟩)]⟩ "f.xml" ≠
      ⟨[⟨"a", "b", "1", "Privileged", "0", "0"⟩]⟩ ∧
    GetLabelInfoXml ⟨[], [("f.xml",
        templateLabelInfoXml ⟨[⟨"a", "b", "1", "Privileged", "0", "0"⟩]⟩)]⟩ "f.xml" =
      ⟨[⟨"\x7ba\x7d", "\x7bb\x7d", "1", "Privileged", "0", "0"⟩]⟩ := by
  refine ⟨by decide, by decide⟩

/-- Counterexample to C5 as stated: a truncated document is not parseable
(`xml.Unmarshal` reports an error, which `GetLabelInfoXml` discards), yet the
returned LabelSet is not empty — the label decoded before the failure is kept. -/
theorem decode_swallow_counterexample :
    xmlParseOk "<labelList><label id=\"\x7ba\x7d\"/><" = false ∧
    GetLabelInfoXml ⟨[], [("f.xml", "<labelList><label id=\"\x7ba\x7d\"/><")]⟩ "f.xml" =
      ⟨[⟨"\x7ba\x7d", "", "", "", "", ""⟩]⟩ ∧
    GetLabelInfoXml ⟨[], [("f.xml", "<labelList><label id=\"\x7ba\x7d\"/><")]⟩ "f.xml" ≠
      ⟨[]⟩ := by
  refine ⟨by decide, by decide, by decide⟩

theorem scanRun_append (xs ys : List Char) (st : ScanState) :
    scanRun st (xs ++ ys) =
      ((scanRun st xs).1 ++ (scanRun (scanRun st xs).2 ys).1,
        (scanRun (scanRun st xs).2 ys).2) := by
  induction xs generalizing st with
  | nil => simp [scanRun]
  | cons c cs ih => simp [scanRun, ih, List.append_assoc]

theorem scanRun_append_of (xs ys : List Char) (st st1 : ScanState) (ts : List XmlTok)
    (h : scanRun st xs = (ts, st1)) :
    scanRun st (xs ++ ys) = (ts ++ (scanRun st1 ys).1, (scanRun st1 ys).2) := by
  rw [scanRun_append, h]

theorem scanRun_aval (v : List Char) (hv : v.all safeChar = true) (el : List Char)
    (acc : List (String × String)) (an va : List Char) (stk : List (List Char)) :
    scanRun ⟨.aval el acc an va false, stk⟩ v =
      ([], ⟨.aval el acc an (va ++ v) false, stk⟩) := by
  induction v generalizing va with
  | nil => simp [scanRun]
  | cons c cs ih =>
      rw [List.all_cons, Bool.and_eq_true] at hv
      obtain ⟨hne, hok⟩ :
          (c ≠ '"' ∧ c ≠ '<' ∧ c ≠ '&' ∧ c ≠ '\r') ∧ xmlCharOk c = true := by
        simpa [safeChar, not_or, and_assoc] using hv.1
      simp [scanRun, scanStep, hne.1, hne.2.1, hne.2.2.1, hne.2.2.2, hok, ih hv.2]

theorem runFragA (stk : List (List Char)) :
    scanRun ⟨.content, stk⟩ ("<clbl:label id=\"\x7b").data =
      ([], ⟨.aval ("clbl:label".data) [] ("id".data) ['\x7b'] false, stk⟩) := rfl

theorem runFragB (el : List Char) (acc : List (String × String)) (an v : List Char)
    (stk : List (List Char)) :
    scanRun ⟨.aval el acc an v false, stk⟩ ("\x7d\" enabled=\"").data =
      ([], ⟨.aval el (acc ++ [(String.mk (localName an), String.mk (v ++ ['\x7d']))])
        ("enabled".data) [] false, stk⟩) := rfl

theorem runFragC (el : List Char) (acc : List (String × String)) (an v : List Char)
    (stk : List (List Char)) :
    scanRun ⟨.aval el acc an v false, stk⟩ ("\" method=\"").data =
      ([], ⟨.aval el (acc ++ [(String.mk (localName an), String.mk v)])
        ("method".data) [] false, stk⟩) := rfl

theorem runFragD (el : List Char) (acc : List (String × String)) (an v : List Char)
    (stk : List (List Char)) :
    scanRun ⟨.aval el acc an v false, stk⟩ ("\" siteId=\"\x7b").data =
      ([], ⟨.aval el (acc ++ [(String.mk (localName an), String.mk v)])
        ("siteId".data) ['\x7b'] false, stk⟩) := rfl

theorem runFragE (el : List Char) (acc : List (String × String)) (an v : List Char)
    (stk : List (List Char)) :
    scanRun ⟨.aval el acc an v false, stk⟩ ("\x7d\" contentBits=\"").data =
      ([], ⟨.aval el (acc ++ [(String.mk (localName an), String.mk (v ++ ['\x7d']))])
        ("contentBits".data) [] false, stk⟩) := rfl

theorem runFragF (el : List Char) (acc : List (String × String)) (an v : List Char)
    (stk : List (List Char)) :
    scanRun ⟨.aval el acc an v false, stk⟩ ("\" removed=\"").data =
      ([], ⟨.aval el (acc ++ [(String.mk (localName an), String.mk v)])
        ("removed".data) [] false, stk⟩) := rfl

theorem runFragG (el : List Char) (acc : List (String × String)) (an v : List Char)
    (stk : List (List Char)) :
    scanRun ⟨.aval el acc an v false, stk⟩ ("\"/>").data =
      ([XmlTok.startE (String.mk (localName el))
          (acc ++ [(String.mk (localName an), String.mk v)]) true], ⟨.content, stk⟩) := rfl

theorem scanRun_labelFragment (l : Label) (h : safeLabel l = true) (stk : List (List Char)) :
    scanRun ⟨.content, stk⟩ (labelFragment l).data = ([labelTok l], ⟨.content, stk⟩) := by
  obtain ⟨hid, hsite, hen, hme, hcb, hrm⟩ :
      safeStr l.Id = true ∧ safeStr l.SiteId = true ∧ safeStr l.Enabled = true ∧
        safeStr l.Method = true ∧ safeStr l.ContentBits = true ∧ safeStr l.Removed = true := by
    simpa [safeLabel, Bool.and_eq_true, and_assoc] using h
  have hdata : (labelFragment l).data =
      ("<clbl:label id=\"\x7b").data ++ (l.Id.data ++ (("\x7d\" enabled=\"").data ++
        (l.Enabled.data ++ (("\" method=\"").data ++ (l.Method.data ++
          (("\" siteId=\"\x7b").data ++ (l.SiteId.data ++ (("\x7d\" contentBits=\"").data ++
            (l.ContentBits.data ++ (("\" removed=\"").data ++ (l.Removed.data ++
              ("\"/>").data))))))))))) := by
    simp [labelFragment, String.data_append, List.append_assoc]
  rw [hdata,
    scanRun_append_of _ _ _ _ _ (runFragA stk),
    scanRun_append_of _ _ _ _ _ (scanRun_aval l.Id.data hid _ _ _ _ _),
    scanRun_append_of _ _ _ _ _ (runFragB _ _ _ _ stk),
    scanRun_append_of _ _ _ _ _ (scanRun_aval l.Enabled.data hen _ _ _ _ _),
    scanRun_append_of _ _ _ _ _ (runFragC _ _ _ _ stk),
    scanRun_append_of _ _ _ _ _ (scanRun_aval l.Method.data hme _ _ _ _ _),
    scanRun_append_of _ _ _ _ _ (runFragD _ _ _ _ stk),
    scanRun_append_of _ _ _ _ _ (scanRun_aval l.SiteId.data hsite _ _ _ _ _),
    scanRun_append_of _ _ _ _ _ (runFragE _ _ _ _ stk),
    scanRun_append_of _ _ _ _ _ (scanRun_aval l.ContentBits.data hcb _ _ _ _ _),
    scanRun_append_of _ _ _ _ _ (runFragF _ _ _ _ stk),
    scanRun_append_of _ _ _ _ _ (scanRun_aval l.Removed.data hrm _ _ _ _ _),
    runFragG _ _ _ _ stk]
  simp [labelTok, String.ext_iff, String.data_append]
  decide

theorem scanRun_joinFrags (L : List Label) (h : L.all safeLabel = true)
    (stk : List (List Char)) :
    scanRun ⟨.content, stk⟩ (joinFrags L).data = (L.map labelTok, ⟨.content, stk⟩) := by
  induction L with
  | nil => simp [joinFrags, scanRun]
  | cons l ls ih =>
      rw [List.all_cons, Bool.and_eq_true] at h
      have hdata : (joinFrags (l :: ls)).data =
          (labelFragment l).data ++ (joinFrags ls).data := by
        simp [joinFrags, String.data_append]
      rw [hdata, scanRun_append_of _ _ _ _ _ (scanRun_labelFragment l h.1 stk), ih h.2]
      simp

theorem scanRun_decl (stk : List (List Char)) :
    scanRun ⟨.content, stk⟩ xmlDeclStr.data = ([], ⟨.content, stk⟩) := rfl

theorem scanRun_open (stk : List (List Char)) :
    scanRun ⟨.content, stk⟩ labelListOpen.data =
      ([XmlTok.startE "labelList"
          [("clbl", "http://schemas.microsoft.com/office/2020/mipLabelMetadata")] false],
        ⟨.content, "clbl:labelList".data :: stk⟩) := rfl

theorem scanRun_close (stk : List (List Char)) :
    scanRun ⟨.content, ("clbl:labelList".data) :: stk⟩ labelListClose.data =
      ([XmlTok.endE "labelList"], ⟨.content, stk⟩) := rfl

theorem tokenize_encode (ls : Labels) (h : ls.labels.all safeLabel = true) :
    tokenizeXml (templateLabelInfoXml ls) =
      XmlTok.startE "labelList"
          [("clbl", "http://schemas.microsoft.com/office/2020/mipLabelMetadata")] false ::
        (ls.labels.map labelTok ++ [XmlTok.endE "labelList"]) := by
  have hdata : (templateLabelInfoXml ls).data =
      xmlDeclStr.data ++ (labelListOpen.data ++
        ((joinFrags ls.labels).data ++ labelListClose.data)) := by
    rw [encode_eq]
    simp [String.data_append, List.append_assoc]
  unfold tokenizeXml
  rw [hdata,
    scanRun_append_of _ _ _ _ _ (scanRun_decl _),
    scanRun_append_of _ _ _ _ _ (scanRun_open _),
    scanRun_append_of _ _ _ _ _ (scanRun_joinFrags ls.labels h _),
    scanRun_close _]
  simp

theorem labelOfAttrs_labelTok (l : Label) :
    labelOfAttrs
        [("id", "\x7b" ++ l.Id ++ "\x7d"), ("enabled", l.Enabled), ("method", l.Method),
          ("siteId", "\x7b" ++ l.SiteId ++ "\x7d"), ("contentBits", l.ContentBits),
          ("removed", l.Removed)] = braceLabel l := by
  simp [labelOfAttrs, applyAttr, emptyLabel, braceLabel]

theorem parseContent_labelToks (L : List Label) (acc : List Label) :
    parseContent (L.map labelTok ++ [XmlTok.endE "labelList"]) 0 acc =
      (acc ++ L.map braceLabel, true) := by
  induction L generalizing acc with
  | nil => simp [parseContent]
  | cons l ls ih =>
      simp [parseContent, labelTok, labelOfAttrs_labelTok, ih]

theorem parseContent_labelToks_noend (L : List Label) (acc : List Label) :
    parseContent (L.map labelTok) 0 acc = (acc ++ L.map braceLabel, false) := by
  induction L generalizing acc with
  | nil => simp [parseContent]
  | cons l ls ih =>
      simp [parseContent, labelTok, labelOfAttrs_labelTok, ih]

theorem decode_encode (ls : Labels) (h : ls.labels.all safeLabel = true) :
    decodeLabelInfo (templateLabelInfoXml ls) = (⟨ls.labels.map braceLabel⟩, true) := by
  unfold decodeLabelInfo
  rw [tokenize_encode ls h]
  simp [unmarshalLabels, parseContent_labelToks]

/-- C1 (amended): decoding an encoded LabelSet does not return the original
field-for-field; it returns the original with the id and siteId of every label
wrapped in the braces the encoder added, other fields and order preserved —
provided every field is free of the characters `"` `<` `&` (which the encoder
does not escape, see C10), free of carriage returns (which the decoder
rewrites to line feeds), and inside the XML character range (an illegal
character is a decode error).  Stated through `GetLabelInfoXml` reading the
encoded document from a file. -/
theorem roundtrip_braced (fs : FS) (p : String) (ls : Labels)
    (hsafe : ls.labels.all safeLabel = true)
    (hfile : readFile fs p = some (templateLabelInfoXml ls)) :
    GetLabelInfoXml fs p = ⟨ls.labels.map braceLabel⟩ := by
  unfold GetLabelInfoXml readFileD
  rw [hfile]
  simp [decode_encode ls hsafe]

/-- Witness for C1 (amended) at a two-label LabelSet with an empty field. -/
theorem roundtrip_braced_witness :
    ((⟨[⟨"a", "b", "1", "Privileged", "0", "0"⟩, ⟨"", "t", "0", "Standard", "7", "1"⟩]⟩ :
        Labels).labels.all safeLabel = true) ∧
    GetLabelInfoXml
        ⟨[], [("g.xml", templateLabelInfoXml
          ⟨[⟨"a", "b", "1", "Privileged", "0", "0"⟩, ⟨"", "t", "0", "Standard", "7", "1"⟩]⟩)]⟩
        "g.xml" =
      ⟨[⟨"\x7ba\x7d", "\x7bb\x7d", "1", "Privileged", "0", "0"⟩,
        ⟨"\x7b\x7d", "\x7bt\x7d", "0", "Standard", "7", "1"⟩]⟩ := by
  refine ⟨by decide, ?_⟩
  have h := roundtrip_braced
    ⟨[], [("g.xml", templateLabelInfoXml
      ⟨[⟨"a", "b", "1", "Privileged", "0", "0"⟩, ⟨"", "t", "0", "Standard", "7", "1"⟩]⟩)]⟩
    "g.xml"
    ⟨[⟨"a", "b", "1", "Privileged", "0", "0"⟩, ⟨"", "t", "0", "Standard", "7", "1"⟩]⟩
    (by decide) (by decide)
  rw [h]
  decide

/-- C5 (amended): a document-level parse failure is swallowed, but the labels
decoded before the failure are returned, not necessarily zero of them — for
any LabelSet whose fields are free of `"` `<` `&` and carriage returns and
XML-illegal characters, the encoder output with its closing tag replaced by a
dangling `<` is unparsable yet decodes to all its (brace-wrapped) labels with
the error discarded; zero labels result only when no complete label precedes
the failure.  A structurally valid label element lacking attributes decodes
with empty-string values for the missing fields rather than aborting. -/
theorem decode_partial_amended (ls : Labels) (hsafe : ls.labels.all safeLabel = true) :
    decodeLabelInfo (xmlDeclStr ++ labelListOpen ++ joinFrags ls.labels ++ "<") =
      (⟨ls.labels.map braceLabel⟩, false) ∧
    decodeLabelInfo "<labelList><label id=\"\x7ba\x7d\"/></labelList>" =
      (⟨[⟨"\x7ba\x7d", "", "", "", "", ""⟩]⟩, true) := by
  refine ⟨?_, by decide⟩
  have hdata : (xmlDeclStr ++ labelListOpen ++ joinFrags ls.labels ++ "<").data =
      xmlDeclStr.data ++ (labelListOpen.data ++ ((joinFrags ls.labels).data ++ ("<").data)) := by
    simp [String.data_append, List.append_assoc]
  unfold decodeLabelInfo tokenizeXml
  rw [hdata,
    scanRun_append_of _ _ _ _ _ (scanRun_decl _),
    scanRun_append_of _ _ _ _ _ (scanRun_open _),
    scanRun_append_of _ _ _ _ _ (scanRun_joinFrags ls.labels hsafe _)]
  simp [scanRun, scanStep, unmarshalLabels, parseContent_labelToks_noend]

/-- Witness for C5 (amended) at a one-label LabelSet. -/
theorem decode_partial_amended_witness :
    ((⟨[⟨"a", "b", "1", "Privileged", "0", "0"⟩]⟩ : Labels).labels.all safeLabel = true) ∧
    decodeLabelInfo
        (xmlDeclStr ++ labelListOpen ++ joinFrags [⟨"a", "b", "1", "Privileged", "0", "0"⟩]
          ++ "<") =
      (⟨[⟨"\x7ba\x7d", "\x7bb\x7d", "1", "Privileged", "0", "0"⟩]⟩, false) := by
  refine ⟨by decide, ?_⟩
  have h := (decode_partial_amended ⟨[⟨"a", "b", "1", "Privileged", "0", "0"⟩]⟩ (by decide)).1
  rw [h]
  decide
